import Mathlib

/-!
Verification of the trade-flow graph construction and styling pipeline of
the cites-network repository (`src/network_graph.py`), against its
natural-language specification.

The Python code builds a directed NetworkX graph from an edge table, sets
node `size` attributes from a centrality measure, sets node `color`
attributes from exporter/importer roles, and projects the graph onto a
geographic figure (one line trace per edge, one marker trace for all
nodes).

Shallow embedding conventions:
- Pandas/NetworkX node identifiers are `String` country codes.
- Python floats are modelled as `ℚ` (all the arithmetic involved is exact
  rational arithmetic: divisions by node counts, `* 100`, `* 0.01`, `max`).
- A NetworkX node-attribute dictionary is a partial function
  `String → Option ℚ` (resp. `Option String`).
- The builder's `self.graph` field, `None` until `build_graph` runs, is an
  `Option NXDiGraph`; Python truthiness of a graph (`not self.graph`) is
  node-count positivity, as in NetworkX (`Graph.__len__`).
- A Python function that can raise is modelled in `Except String`.
- The NetworkX centrality routines called by `scale_nodes` are embedded
  from their library definitions (degree/in-degree/out-degree centrality,
  closeness with the Wasserman–Faust improvement, Brandes-normalized
  betweenness).  Eigenvector centrality is floating-point power iteration
  that may raise `PowerIterationFailedConvergence`; it is modelled as an
  explicit parameter returning `Except String` results, plus the
  unit-Euclidean-norm invariant its successful outputs satisfy.
-/

namespace CitesNetwork

/-- A row of the (pre-aggregated) trade edge table handed to
`NetworkGraphBuilder`: columns `Exporter`, `Importer`, `Weight`. -/
structure EdgeRow where
  exporter : String
  importer : String
  weight : ℚ
deriving Repr, DecidableEq

/-- A directed edge of the built graph, with its optional `Weight`
attribute (present only when `build_graph(weighted=True)` was used). -/
structure EdgeData where
  src : String
  dst : String
  weight : Option ℚ
deriving Repr, DecidableEq

/-- A directed NetworkX-style graph: node list in insertion order, edge
list in insertion order, and the two mutable node attributes the code
uses (`size`, `color`) as partial functions. -/
structure NXDiGraph where
  nodes : List String
  edges : List EdgeData
  sizeAttr : String → Option ℚ
  colorAttr : String → Option String

/-- A row of the country reference table (`countries.csv`): columns
`country`, `longitude`, `latitude`, `name`. -/
structure CountryRow where
  country : String
  longitude : ℚ
  latitude : ℚ
  name : String
deriving Repr, DecidableEq

/-- Behaviour of `nx.DiGraph.add_node` inside `add_edge`: append the node if
it is not already present. -/
def insertNode (ns : List String) (u : String) : List String :=
  if u ∈ ns then ns else ns ++ [u]

/-- Behaviour of `nx.DiGraph.add_edge u v`: if the edge is already present its
attributes are overwritten, otherwise the edge is appended. -/
def upsertEdge (es : List EdgeData) (u v : String) (w : Option ℚ) : List EdgeData :=
  if es.any (fun e => u == e.src && v == e.dst) then
    es.map (fun e => if u == e.src && v == e.dst then ⟨u, v, w⟩ else e)
  else
    es ++ [⟨u, v, w⟩]

/-- The empty directed graph (`nx.DiGraph()`). -/
def emptyGraph : NXDiGraph :=
  { nodes := [], edges := [], sizeAttr := fun _ => none, colorAttr := fun _ => none }

/-- Embedding of `NetworkGraphBuilder.build_graph`: `nx.from_pandas_edgelist` over the
edge table with `source="Exporter"`, `target="Importer"`, taking
`edge_attr="Weight"` exactly when `weighted` is true, into a fresh
`nx.DiGraph`.  Rows are inserted in order; a repeated (exporter, importer)
pair overwrites the earlier edge's weight. -/
def build_graph (rows : List EdgeRow) (weighted : Bool) : NXDiGraph :=
  rows.foldl
    (fun g r =>
      { g with
        nodes := insertNode (insertNode g.nodes r.exporter) r.importer,
        edges := upsertEdge g.edges r.exporter r.importer
          (if weighted then some r.weight else none) })
    emptyGraph

/-- Python truthiness of the builder's `self.graph` field: `False` for
`None` and for a graph with zero nodes (NetworkX graphs delegate `bool`
to `len`, the node count). -/
def graphTruthy : Option NXDiGraph → Bool
  | none => false
  | some g => !g.nodes.isEmpty

/-! ## Degree-family centralities (embedded from `networkx`)

`nx.degree_centrality` / `in_degree_centrality` / `out_degree_centrality`:
if `len(G) <= 1` every node scores `1`; otherwise each node's degree of
the given kind is multiplied by `1 / (len(G) - 1)`.  In a `DiGraph`, `degree` is
`in_degree + out_degree`, and a self-loop contributes to both. -/

/-- Out-degree of a node: number of edges leaving it. -/
def outDeg (g : NXDiGraph) (n : String) : ℕ :=
  (g.edges.filter (fun e => e.src == n)).length

/-- In-degree of a node: number of edges entering it. -/
def inDeg (g : NXDiGraph) (n : String) : ℕ :=
  (g.edges.filter (fun e => e.dst == n)).length

/-- Embedding of `DiGraph.degree`: in-degree plus out-degree. -/
def deg (g : NXDiGraph) (n : String) : ℕ :=
  inDeg g n + outDeg g n

/-- Embedding of `nx.degree_centrality` as a partial function on nodes. -/
def degree_centrality (g : NXDiGraph) : String → Option ℚ := fun n =>
  if n ∈ g.nodes then
    if g.nodes.length ≤ 1 then some 1
    else some ((deg g n : ℚ) / ((g.nodes.length : ℚ) - 1))
  else none

/-- Embedding of `nx.in_degree_centrality` as a partial function on nodes. -/
def in_degree_centrality (g : NXDiGraph) : String → Option ℚ := fun n =>
  if n ∈ g.nodes then
    if g.nodes.length ≤ 1 then some 1
    else some ((inDeg g n : ℚ) / ((g.nodes.length : ℚ) - 1))
  else none

/-- Embedding of `nx.out_degree_centrality` as a partial function on nodes. -/
def out_degree_centrality (g : NXDiGraph) : String → Option ℚ := fun n =>
  if n ∈ g.nodes then
    if g.nodes.length ≤ 1 then some 1
    else some ((outDeg g n : ℚ) / ((g.nodes.length : ℚ) - 1))
  else none

/-! ## Closeness centrality (embedded from `networkx`)

On a directed graph `nx.closeness_centrality` computes, for each node
`u`, BFS distances *towards* `u` (it reverses the graph first).  With the
default Wasserman–Faust improvement, writing `r` for the number of nodes
that can reach `u` (including `u`) and `totsp` for the sum of their
distances, the score is `(r-1)/totsp * (r-1)/(n-1)` when `totsp > 0` and
`n > 1`, else `0`. -/

/-- Successors of a node along directed edges. -/
def successors (g : NXDiGraph) (n : String) : List String :=
  (g.edges.filter (fun e => e.src == n)).map (fun e => e.dst)

/-- Nodes reachable from `s` in at most `k` steps. -/
def withinK (g : NXDiGraph) : ℕ → String → List String
  | 0, s => [s]
  | k + 1, s =>
    let prev := withinK g k s
    (prev ++ prev.flatMap (successors g)).dedup

/-- Shortest directed distance from `s` to `t`: the least step count
(searched up to the node count) at which `t` becomes reachable;
`none` when `t` is unreachable from `s`. -/
def sdist (g : NXDiGraph) (s t : String) : Option ℕ :=
  (List.range (g.nodes.length + 1)).find? (fun k => (withinK g k s).contains t)

/-- The nodes that can reach `u` along directed edges (including `u`
itself): the key set of `single_source_shortest_path_length` on the
reversed graph. -/
def reachersOf (g : NXDiGraph) (u : String) : List String :=
  g.nodes.filter (fun v => (sdist g v u).isSome)

/-- The `totsp` of `nx.closeness_centrality`: the sum of the shortest
distances towards `u` over the nodes that reach it. -/
def totalReachDist (g : NXDiGraph) (u : String) : ℕ :=
  ((reachersOf g u).map (fun v => (sdist g v u).getD 0)).sum

/-- Embedding of `nx.closeness_centrality` (directed, `wf_improved=True`) as a partial
function on nodes. -/
def closeness_centrality (g : NXDiGraph) : String → Option ℚ := fun u =>
  if u ∈ g.nodes then
    if 0 < totalReachDist g u ∧ 1 < g.nodes.length then
      some (((((reachersOf g u).length - 1 : ℕ) : ℚ) / (totalReachDist g u : ℚ)) *
        ((((reachersOf g u).length - 1 : ℕ) : ℚ) / ((g.nodes.length : ℚ) - 1)))
    else some 0
  else none

/-! ## Betweenness centrality (embedded from `networkx`)

`nx.betweenness_centrality` with its defaults (`normalized=True`,
`endpoints=False`) computes, for node `v`,
`sum over pairs s ≠ t, both ≠ v, of σ(s,t|v)/σ(s,t)` where `σ(s,t)`
counts shortest directed s→t paths and `σ(s,t|v)` those passing through
`v`; on a directed graph with more than two nodes the sum is rescaled by
`1/((n-1)(n-2))`.  Shortest paths are enumerated here over simple paths,
which suffices since every shortest path is simple. -/

/-- All simple directed paths from `s` to `t` avoiding `visited`,
with at most `fuel` edges. -/
def simplePathsAux (g : NXDiGraph) (t : String) :
    ℕ → String → List String → List (List String)
  | 0, s, _ => if s == t then [[s]] else []
  | fuel + 1, s, visited =>
    if s == t then [[s]]
    else
      ((successors g s).filter (fun v => !((s :: visited).contains v))).flatMap
        (fun v => (simplePathsAux g t fuel v (s :: visited)).map (fun p => s :: p))

/-- All simple directed paths from `s` to `t` in `g`. -/
def allPaths (g : NXDiGraph) (s t : String) : List (List String) :=
  simplePathsAux g t g.nodes.length s []

/-- The shortest directed paths from `s` to `t`: the simple paths of
minimal length. -/
def shortestPaths (g : NXDiGraph) (s t : String) : List (List String) :=
  match allPaths g s t with
  | [] => []
  | p :: ps =>
    let L := (ps.map List.length).foldl min p.length
    (p :: ps).filter (fun q => q.length == L)

/-- Count `σ(s,t)`: the number of shortest directed paths from `s` to `t`. -/
def sigma (g : NXDiGraph) (s t : String) : ℕ :=
  (shortestPaths g s t).length

/-- Count `σ(s,t|v)`: the number of shortest directed `s → t` paths passing
through `v`. -/
def sigmaThrough (g : NXDiGraph) (s t v : String) : ℕ :=
  ((shortestPaths g s t).filter (fun p => p.contains v)).length

/-- The pair dependency `δ(s,t|v) = σ(s,t|v)/σ(s,t)` (zero when no path
exists). -/
def pairDelta (g : NXDiGraph) (s t v : String) : ℚ :=
  if sigma g s t = 0 then 0
  else (sigmaThrough g s t v : ℚ) / (sigma g s t : ℚ)

/-- The raw (unscaled) betweenness accumulation of
`nx.betweenness_centrality` (directed, `endpoints=False`): the sum of
pair dependencies over ordered pairs of distinct nodes avoiding `v`. -/
def rawBetweenness (g : NXDiGraph) (v : String) : ℚ :=
  ((g.nodes.filter (fun s => !(s == v))).map (fun s =>
    ((g.nodes.filter (fun t => !(t == v) && !(t == s))).map
      (fun t => pairDelta g s t v)).sum)).sum

/-- Embedding of `nx.betweenness_centrality` (directed,
`normalized=True`, `endpoints=False`) as a partial function on nodes:
the raw accumulation rescaled by `1/((n-1)(n-2))` when `n > 2`. -/
def betweenness_centrality (g : NXDiGraph) : String → Option ℚ := fun v =>
  if v ∈ g.nodes then
    if 2 < g.nodes.length then
      some (rawBetweenness g v /
        (((g.nodes.length : ℚ) - 1) * ((g.nodes.length : ℚ) - 2)))
    else some (rawBetweenness g v)
  else none

/-! ## Eigenvector centrality

`nx.eigenvector_centrality` runs floating-point power iteration and
raises `PowerIterationFailedConvergence` when the tolerance is not met
within the iteration limit (routine on directed acyclic trade graphs).
The iteration itself is not rational arithmetic, so it enters the
embedding as an explicit parameter producing `Except String` results.
What is fixed by the library is the shape of a *successful* result: a
nonnegative score vector rescaled to unit Euclidean norm, captured by
`eigenvectorNormalized` below on the list of scores. -/

/-- The invariant of a successful `nx.eigenvector_centrality` result,
on its list of values: entries are nonnegative and the vector has unit
Euclidean norm (the library divides by `hypot(*x.values())`). -/
def eigenvectorNormalized (values : List ℚ) : Prop :=
  (∀ v ∈ values, 0 ≤ v) ∧ (values.map (fun v => v * v)).sum = 1

instance (values : List ℚ) : Decidable (eigenvectorNormalized values) := by
  unfold eigenvectorNormalized; infer_instance

/-! ## `NetworkGraphBuilder.scale_nodes` -/

/-- The effect of the `scale_nodes` loop
`for node, value in cent.items(): nx.set_node_attributes(graph, {node: value * 100}, "size")`:
every node in the centrality dictionary has its `size` attribute set to
`value * 100`; other nodes keep their previous attribute. -/
def setSizes (g : NXDiGraph) (cent : String → Option ℚ) : NXDiGraph :=
  { g with
    sizeAttr := fun n =>
      match cent n with
      | some v => some (v * 100)
      | none => g.sizeAttr n }

/-- Embedding of `NetworkGraphBuilder.scale_nodes`.  Here `eig` is the library's
eigenvector-centrality routine (power iteration that may raise, modelled
in `Except String`); the source contains no exception handler, so an
`eig` failure is the result of the whole call.  Raises
`ValueError("Graph not built.")` when `self.graph` is falsy; an
unrecognized method name leaves the graph untouched. -/
def scale_nodes (eig : NXDiGraph → Except String (String → Option ℚ))
    (builderGraph : Option NXDiGraph) (scale_method : String) :
    Except String NXDiGraph :=
  match builderGraph with
  | none => Except.error "Graph not built."
  | some g =>
    if g.nodes.isEmpty then Except.error "Graph not built."
    else if scale_method == "degree" then
      Except.ok (setSizes g (degree_centrality g))
    else if scale_method == "indegree" then
      Except.ok (setSizes g (in_degree_centrality g))
    else if scale_method == "outdegree" then
      Except.ok (setSizes g (out_degree_centrality g))
    else if scale_method == "eigenvector" then
      match eig g with
      | Except.ok cent => Except.ok (setSizes g cent)
      | Except.error e => Except.error e
    else if scale_method == "closeness" then
      Except.ok (setSizes g (closeness_centrality g))
    else if scale_method == "betweenness" then
      Except.ok (setSizes g (betweenness_centrality g))
    else Except.ok g

/-! ## `NetworkGraphBuilder.color_nodes` -/

/-- Embedding of `NetworkGraphBuilder.color_nodes`: every node of the graph gets a
`color` attribute — the exporter color when it is in `exporters`, else
the importer color when it is in `importers`, else the default color.
`ec`, `ic`, `dc` are the builder's `exporter_color`, `importer_color`,
`default_color` fields. -/
def color_nodes (ec ic dc : String) (g : NXDiGraph)
    (exporters importers : List String) : NXDiGraph :=
  { g with
    colorAttr := fun n =>
      if n ∈ g.nodes then
        some (if n ∈ exporters then ec else if n ∈ importers then ic else dc)
      else g.colorAttr n }

/-! ## `NetworkGraphBuilder.build_map` -/

/-- One `go.Scattergeo` line trace for a single edge. -/
structure EdgeTrace where
  lon : List ℚ
  lat : List ℚ
  width : ℚ
  color : String
deriving Repr, DecidableEq

/-- The single `go.Scattergeo` marker trace covering all nodes. -/
structure NodeTrace where
  lon : List ℚ
  lat : List ℚ
  sizes : List ℚ
  colors : List String
  text : List String
deriving Repr, DecidableEq

/-- The figure produced by `build_map`: one line trace per edge plus the
node marker trace. -/
structure Figure where
  edge_traces : List EdgeTrace
  node_trace : NodeTrace
deriving Repr, DecidableEq

/-- Lookup `countries.loc[countries["country"] == node]` followed by `.iloc[0]`:
the first row of the reference table matching the code, if any. -/
def lookupCountry (countries : List CountryRow) (code : String) : Option CountryRow :=
  countries.find? (fun r => r.country == code)

/-- Node position resolution in `build_map`: the matching row's
(longitude, latitude), or the origin `(0, 0)` when the lookup misses. -/
def nodePos (countries : List CountryRow) (code : String) : ℚ × ℚ :=
  match lookupCountry countries code with
  | some r => (r.longitude, r.latitude)
  | none => (0, 0)

/-- Node label resolution in `build_map`: the matching row's display
name, or `"XX"` when the lookup misses. -/
def nodeName (countries : List CountryRow) (code : String) : String :=
  match lookupCountry countries code with
  | some r => r.name
  | none => "XX"

/-- The edge color priority chain of `build_map`: purple for the
highlighted exporter→importer pair, blue for other edges out of the
highlighted exporter, orange for other edges into the highlighted
importer, grey otherwise. -/
def edgeColor (ex_code im_code src dst : String) : String :=
  if src == ex_code && dst == im_code then "#9467bd"
  else if src == ex_code then "#1f77b4"
  else if dst == im_code then "#ff7f0e"
  else "grey"

/-- Edge width in `build_map`:
`weight = graph[src][dst].get("Weight", 1); width = max(1, weight * 0.01)`. -/
def edgeWidth (w : Option ℚ) : ℚ :=
  max 1 (w.getD 1 * (1 / 100))

/-- Embedding of `NetworkGraphBuilder.build_map`: positions every node by country
lookup (origin and label `"XX"` on a miss), emits one line trace per
edge with the priority coloring and weight-derived width, and one marker
trace with per-node size (default 8), color (default `"grey"`) and
label. -/
def build_map (g : NXDiGraph) (countries : List CountryRow)
    (exporter_sel importer_sel : String) : Figure :=
  let edge_traces := g.edges.map (fun e =>
    { lon := [(nodePos countries e.src).1, (nodePos countries e.dst).1],
      lat := [(nodePos countries e.src).2, (nodePos countries e.dst).2],
      width := edgeWidth e.weight,
      color := edgeColor exporter_sel importer_sel e.src e.dst : EdgeTrace })
  let node_trace : NodeTrace :=
    { lon := g.nodes.map (fun n => (nodePos countries n).1),
      lat := g.nodes.map (fun n => (nodePos countries n).2),
      sizes := g.nodes.map (fun n => (g.sizeAttr n).getD 8),
      colors := g.nodes.map (fun n => (g.colorAttr n).getD "grey"),
      text := g.nodes.map (fun n => nodeName countries n) }
  { edge_traces := edge_traces, node_trace := node_trace }

/-! ## Well-formedness of built graphs -/

/-- Structural invariants every graph produced by `build_graph` enjoys:
the node list is duplicate-free, every edge endpoint is a node, and no
two edges share the same (source, target) pair. -/
def WF (g : NXDiGraph) : Prop :=
  g.nodes.Nodup ∧
  (∀ e ∈ g.edges, e.src ∈ g.nodes ∧ e.dst ∈ g.nodes) ∧
  (g.edges.map (fun e => (e.src, e.dst))).Nodup

instance (g : NXDiGraph) : Decidable (WF g) := by
  unfold WF; infer_instance

/-- A graph with no self-loop edges. -/
def NoSelfLoops (g : NXDiGraph) : Prop :=
  ∀ e ∈ g.edges, e.src ≠ e.dst

instance (g : NXDiGraph) : Decidable (NoSelfLoops g) := by
  unfold NoSelfLoops; infer_instance

/-! ## Concrete graphs and stubs used by witnesses and counterexamples -/

/-- An eigenvector-centrality stub; the claims that use it never reach the
eigenvector branch. -/
def eigStub : NXDiGraph → Except String (String → Option ℚ) :=
  fun _ => Except.error "unused"

/-- The library's eigenvector power iteration on an input where it fails
to converge: it raises `PowerIterationFailedConvergence`. -/
def eigPowerFail : NXDiGraph → Except String (String → Option ℚ) :=
  fun _ => Except.error "PowerIterationFailedConvergence"

/-- The one-edge trade table A → B. -/
def gAB : NXDiGraph := build_graph [⟨"A", "B", 10⟩] false

/-- The reciprocal trade table A → B, B → A. -/
def gCycle : NXDiGraph := build_graph [⟨"A", "B", 10⟩, ⟨"B", "A", 5⟩] false

/-- A one-row country reference table. -/
def sampleCountries : List CountryRow := [⟨"A", 10, 20, "Albania"⟩]

/-! ## Claim theorems -/

/-- C10: when the builder's graph is falsy — `None`, or a graph with zero
nodes, including the graph built from an empty edge table — `scale_nodes`
raises `ValueError("Graph not built.")` for every method name: the
precondition tests the graph's truthiness (node count), not whether
`build_graph` was ever called. -/
theorem scale_nodes_requires_truthy_graph
    (eig : NXDiGraph → Except String (String → Option ℚ))
    (og : Option NXDiGraph) (scale_method : String) (w : Bool)
    (h : graphTruthy og = false) :
    scale_nodes eig og scale_method = Except.error "Graph not built." ∧
    graphTruthy (some (build_graph [] w)) = false := by
  constructor
  · cases og with
    | none => rfl
    | some g =>
      have hempty : g.nodes.isEmpty = true := by
        simpa [graphTruthy] using h
      simp [scale_nodes, hempty]
  · cases w <;> rfl

/-- Witness for C10: concrete run on the graph built from the empty edge
table. -/
theorem scale_nodes_requires_truthy_graph_witness :
    scale_nodes eigStub (some (build_graph [] false)) "degree" =
      Except.error "Graph not built." ∧
    graphTruthy (some (build_graph [] true)) = false :=
  scale_nodes_requires_truthy_graph eigStub (some (build_graph [] false)) "degree" true
    (by decide)

/-- C4: calling `scale_nodes` on a built, non-empty graph with a method
name outside the recognized set is a no-op — the graph is returned
entirely unchanged (no `size` attribute added, removed, or changed) and
no error is raised. -/
theorem scale_nodes_unknown_method_noop
    (eig : NXDiGraph → Except String (String → Option ℚ))
    (g : NXDiGraph) (scale_method : String)
    (hg : graphTruthy (some g) = true)
    (hm : scale_method ∉ (["degree", "indegree", "outdegree", "eigenvector",
      "closeness", "betweenness"] : List String)) :
    scale_nodes eig (some g) scale_method = Except.ok g := by
  have hempty : g.nodes.isEmpty = false := by simpa [graphTruthy] using hg
  have h1 : scale_method ≠ "degree" := fun h => hm (by simp [h])
  have h2 : scale_method ≠ "indegree" := fun h => hm (by simp [h])
  have h3 : scale_method ≠ "outdegree" := fun h => hm (by simp [h])
  have h4 : scale_method ≠ "eigenvector" := fun h => hm (by simp [h])
  have h5 : scale_method ≠ "closeness" := fun h => hm (by simp [h])
  have h6 : scale_method ≠ "betweenness" := fun h => hm (by simp [h])
  simp [scale_nodes, hempty, h1, h2, h3, h4, h5, h6]

/-- Witness for C4: a concrete unrecognized method name on a concrete
graph. -/
theorem scale_nodes_unknown_method_noop_witness :
    graphTruthy (some gAB) = true ∧
    scale_nodes eigStub (some gAB) "pagerank" = Except.ok gAB :=
  ⟨by decide,
   scale_nodes_unknown_method_noop eigStub gAB "pagerank" (by decide) (by decide)⟩

/-- C3: an empty edge table produces an empty graph (zero nodes, zero
edges) through `build_graph`, and `build_map` on it yields a figure with
zero edge traces and an empty node trace; both functions are total, so no
exception arises. -/
theorem empty_edge_table_pipeline (w : Bool) (countries : List CountryRow)
    (ex_code im_code : String) :
    (build_graph [] w).nodes = [] ∧ (build_graph [] w).edges = [] ∧
    build_map (build_graph [] w) countries ex_code im_code =
      { edge_traces := [],
        node_trace := { lon := [], lat := [], sizes := [], colors := [], text := [] } } := by
  cases w <;> exact ⟨rfl, rfl, rfl⟩

/-- C6: `color_nodes` colors every node of the graph by the fixed
priority — exporter set first (its color wins even for a node also in the
importer set), then importer set, then the default. -/
theorem color_nodes_exporter_priority
    (ec ic dc : String) (g : NXDiGraph) (exporters importers : List String)
    (n : String) (hn : n ∈ g.nodes) :
    (n ∈ exporters →
      (color_nodes ec ic dc g exporters importers).colorAttr n = some ec) ∧
    (n ∉ exporters → n ∈ importers →
      (color_nodes ec ic dc g exporters importers).colorAttr n = some ic) ∧
    (n ∉ exporters → n ∉ importers →
      (color_nodes ec ic dc g exporters importers).colorAttr n = some dc) := by
  refine ⟨fun he => ?_, fun he hi => ?_, fun he hi => ?_⟩ <;>
    simp_all [color_nodes]

/-- Witness for C6: a node in both highlight sets receives the exporter
color. -/
theorem color_nodes_exporter_priority_witness :
    "A" ∈ gAB.nodes ∧
    (color_nodes "#1f77b4" "#ff7f0e" "rgb(0,0,0)" gAB ["A"] ["A"]).colorAttr "A" =
      some "#1f77b4" :=
  ⟨by decide,
   (color_nodes_exporter_priority "#1f77b4" "#ff7f0e" "rgb(0,0,0)" gAB ["A"] ["A"] "A"
      (by decide)).1 (by decide)⟩

/-- C7: in `build_map` each edge's trace color follows the fixed priority
chain — purple `"#9467bd"` for the highlighted exporter→importer pair,
blue `"#1f77b4"` for other edges out of the highlighted exporter, orange
`"#ff7f0e"` for other edges into the highlighted importer, `"grey"`
otherwise — and the pair color is distinct from both role colors. -/
theorem build_map_edge_color_priority
    (g : NXDiGraph) (countries : List CountryRow) (ex_code im_code : String) :
    ((build_map g countries ex_code im_code).edge_traces.map (fun tr => tr.color)) =
      g.edges.map (fun e => edgeColor ex_code im_code e.src e.dst) ∧
    (∀ src dst : String,
      (src = ex_code ∧ dst = im_code → edgeColor ex_code im_code src dst = "#9467bd") ∧
      (src = ex_code ∧ dst ≠ im_code → edgeColor ex_code im_code src dst = "#1f77b4") ∧
      (src ≠ ex_code ∧ dst = im_code → edgeColor ex_code im_code src dst = "#ff7f0e") ∧
      (src ≠ ex_code ∧ dst ≠ im_code → edgeColor ex_code im_code src dst = "grey")) ∧
    ("#9467bd" : String) ≠ "#1f77b4" ∧ ("#9467bd" : String) ≠ "#ff7f0e" := by
  refine ⟨?_, ?_, by decide, by decide⟩
  · simp [build_map, List.map_map]
  · intro src dst
    refine ⟨fun h => ?_, fun h => ?_, fun h => ?_, fun h => ?_⟩ <;>
      simp [edgeColor, h.1, h.2]

/-- Witness for C7: the concrete A→B edge with A and B highlighted is
colored as the highlighted pair. -/
theorem build_map_edge_color_priority_witness :
    ((build_map gAB [] "A" "B").edge_traces.map (fun tr => tr.color)) =
      gAB.edges.map (fun e => edgeColor "A" "B" e.src e.dst) ∧
    edgeColor "A" "B" "A" "B" = "#9467bd" :=
  ⟨(build_map_edge_color_priority gAB [] "A" "B").1,
   ((build_map_edge_color_priority gAB [] "A" "B").2.1 "A" "B").1 ⟨rfl, rfl⟩⟩

/-- C8: in `build_map` every edge's width is `max(1, weight * 0.01)` when
the edge carries a `Weight` attribute and `1` when it is absent, so every
derived width is at least 1. -/
theorem build_map_edge_width_floor
    (g : NXDiGraph) (countries : List CountryRow) (ex_code im_code : String) :
    ((build_map g countries ex_code im_code).edge_traces.map (fun tr => tr.width)) =
      g.edges.map (fun e => edgeWidth e.weight) ∧
    (∀ w : ℚ, edgeWidth (some w) = max 1 (w * (1 / 100))) ∧
    edgeWidth none = 1 ∧
    (∀ tr ∈ (build_map g countries ex_code im_code).edge_traces, 1 ≤ tr.width) := by
  refine ⟨?_, fun w => rfl, by norm_num [edgeWidth], ?_⟩
  · simp [build_map, List.map_map]
  · intro tr htr
    simp only [build_map, List.mem_map] at htr
    obtain ⟨e, _, rfl⟩ := htr
    exact le_max_left _ _

/-- Witness for C8: a concrete weighted edge and evaluation of both width
cases. -/
theorem build_map_edge_width_floor_witness :
    edgeWidth (some 200) = max 1 ((200 : ℚ) * (1 / 100)) ∧ edgeWidth none = 1 ∧
    (1 : ℚ) ≤ edgeWidth (some 200) :=
  ⟨(build_map_edge_width_floor (build_graph [⟨"A", "B", 200⟩] true) [] "A" "B").2.1 200,
   (build_map_edge_width_floor (build_graph [⟨"A", "B", 200⟩] true) [] "A" "B").2.2.1,
   by norm_num [edgeWidth]⟩

/-- C9: `build_map` resolves every node through the country reference
table: a node with no matching row gets position `(0, 0)` and label
`"XX"` (and the lookup being a total function, nothing is raised), while
a node with a matching row gets that row's longitude/latitude and display
name; the node trace is assembled from exactly these resolutions. -/
theorem build_map_coordinate_fallback
    (g : NXDiGraph) (countries : List CountryRow) (ex_code im_code : String) :
    (∀ n : String, lookupCountry countries n = none →
      nodePos countries n = (0, 0) ∧ nodeName countries n = "XX") ∧
    (∀ n r, lookupCountry countries n = some r →
      nodePos countries n = (r.longitude, r.latitude) ∧ nodeName countries n = r.name) ∧
    (∀ n : String, lookupCountry countries n = none ↔ ∀ r ∈ countries, r.country ≠ n) ∧
    (build_map g countries ex_code im_code).node_trace.lon =
      g.nodes.map (fun n => (nodePos countries n).1) ∧
    (build_map g countries ex_code im_code).node_trace.lat =
      g.nodes.map (fun n => (nodePos countries n).2) ∧
    (build_map g countries ex_code im_code).node_trace.text =
      g.nodes.map (fun n => nodeName countries n) := by
  refine ⟨?_, ?_, ?_, rfl, rfl, rfl⟩
  · intro n h; constructor <;> simp [nodePos, nodeName, h]
  · intro n r h; constructor <;> simp [nodePos, nodeName, h]
  · intro n
    simp [lookupCountry, List.find?_eq_none]

/-- Witness for C9: the code `"ZZ"` is absent from the sample reference
table and falls back to the origin and label `"XX"`. -/
theorem build_map_coordinate_fallback_witness :
    lookupCountry sampleCountries "ZZ" = none ∧
    nodePos sampleCountries "ZZ" = (0, 0) ∧ nodeName sampleCountries "ZZ" = "XX" :=
  ⟨by decide,
   (build_map_coordinate_fallback gAB sampleCountries "A" "B").1 "ZZ" (by decide)⟩

/-- C1 counterexample: on the graph built from the single trade A → B
(a graph on which the library's power iteration fails to converge and
raises `PowerIterationFailedConvergence`), `scale_nodes` does not return
the graph with sizes unchanged — the error escapes as the result of the
whole call, because the source has no local handler. -/
theorem eigenvector_failure_not_caught_counterexample :
    scale_nodes eigPowerFail (some gAB) "eigenvector" =
      Except.error "PowerIterationFailedConvergence" ∧
    (scale_nodes eigPowerFail (some gAB) "eigenvector").toOption = none := by
  exact ⟨rfl, rfl⟩

/-- C1 amended: a failure of the eigenvector-centrality computation is
not caught inside `scale_nodes`; the exception propagates unchanged to
the caller (and, the computation having failed before any mutation, no
`size` attribute is written). -/
theorem eigenvector_failure_propagates
    (eig : NXDiGraph → Except String (String → Option ℚ)) (g : NXDiGraph) (e : String)
    (hg : graphTruthy (some g) = true) (he : eig g = Except.error e) :
    scale_nodes eig (some g) "eigenvector" = Except.error e := by
  have hempty : g.nodes.isEmpty = false := by simpa [graphTruthy] using hg
  simp [scale_nodes, hempty, he]

/-- Witness for C1 amended: the concrete failing run. -/
theorem eigenvector_failure_propagates_witness :
    graphTruthy (some gAB) = true ∧
    scale_nodes eigPowerFail (some gAB) "eigenvector" =
      Except.error "PowerIterationFailedConvergence" :=
  ⟨by decide,
   eigenvector_failure_propagates eigPowerFail gAB "PowerIterationFailedConvergence"
     (by decide) rfl⟩

/-- C5 counterexample: the hyphenated method names are not recognized.
On the graph A → B, `scale_nodes "in-degree"` returns the graph unchanged
(node B keeps no `size` attribute even though its in-degree centrality is
1), while the hyphenless `"indegree"` does set B's size to 100; the same
holds for `"out-degree"` versus `"outdegree"` at node A. -/
theorem hyphenated_degree_names_unrecognized_counterexample :
    scale_nodes eigStub (some gAB) "in-degree" = Except.ok gAB ∧
    gAB.sizeAttr "B" = none ∧
    in_degree_centrality gAB "B" = some 1 ∧
    (scale_nodes eigStub (some gAB) "indegree").toOption.map (fun h => h.sizeAttr "B") =
      some (some 100) ∧
    scale_nodes eigStub (some gAB) "out-degree" = Except.ok gAB ∧
    out_degree_centrality gAB "A" = some 1 ∧
    (scale_nodes eigStub (some gAB) "outdegree").toOption.map (fun h => h.sizeAttr "A") =
      some (some 100) := by
  have hmemB : "B" ∈ gAB.nodes := by decide
  have hmemA : "A" ∈ gAB.nodes := by decide
  have hlen : gAB.nodes.length = 2 := by decide
  have hin : inDeg gAB "B" = 1 := by decide
  have hout : outDeg gAB "A" = 1 := by decide
  have hcin : in_degree_centrality gAB "B" = some 1 := by
    simp [in_degree_centrality, hmemB, hlen, hin]
    norm_num
  have hcout : out_degree_centrality gAB "A" = some 1 := by
    simp [out_degree_centrality, hmemA, hlen, hout]
    norm_num
  have hrun_in : scale_nodes eigStub (some gAB) "indegree" =
      Except.ok (setSizes gAB (in_degree_centrality gAB)) := rfl
  have hrun_out : scale_nodes eigStub (some gAB) "outdegree" =
      Except.ok (setSizes gAB (out_degree_centrality gAB)) := rfl
  refine ⟨rfl, rfl, hcin, ?_, rfl, hcout, ?_⟩
  · rw [hrun_in]
    show some ((setSizes gAB (in_degree_centrality gAB)).sizeAttr "B") = some (some 100)
    simp [setSizes, hcin]
  · rw [hrun_out]
    show some ((setSizes gAB (out_degree_centrality gAB)).sizeAttr "A") = some (some 100)
    simp [setSizes, hcout]

/-- C5 amended: the recognized in/out-degree method names are the
hyphenless `"indegree"` and `"outdegree"` (the UI layer lowercases and
strips hyphens before calling); with those names every node's `size`
becomes 100 times its in- (resp. out-) degree centrality, while the
hyphenated spellings are unrecognized no-ops. -/
theorem hyphenless_degree_method_names
    (eig : NXDiGraph → Except String (String → Option ℚ)) (g : NXDiGraph)
    (hg : graphTruthy (some g) = true) :
    scale_nodes eig (some g) "indegree" =
      Except.ok (setSizes g (in_degree_centrality g)) ∧
    scale_nodes eig (some g) "outdegree" =
      Except.ok (setSizes g (out_degree_centrality g)) ∧
    (∀ n ∈ g.nodes, ∃ v, in_degree_centrality g n = some v ∧
      (setSizes g (in_degree_centrality g)).sizeAttr n = some (v * 100)) ∧
    (∀ n ∈ g.nodes, ∃ v, out_degree_centrality g n = some v ∧
      (setSizes g (out_degree_centrality g)).sizeAttr n = some (v * 100)) ∧
    scale_nodes eig (some g) "in-degree" = Except.ok g ∧
    scale_nodes eig (some g) "out-degree" = Except.ok g := by
  have hempty : g.nodes.isEmpty = false := by simpa [graphTruthy] using hg
  refine ⟨by simp [scale_nodes, hempty], by simp [scale_nodes, hempty], ?_, ?_,
    by simp [scale_nodes, hempty], by simp [scale_nodes, hempty]⟩
  · intro n hn
    by_cases hlen : g.nodes.length ≤ 1
    · exact ⟨1, by simp [in_degree_centrality, hn, hlen],
        by simp [setSizes, in_degree_centrality, hn, hlen]⟩
    · exact ⟨(inDeg g n : ℚ) / ((g.nodes.length : ℚ) - 1),
        by simp [in_degree_centrality, hn, hlen],
        by simp [setSizes, in_degree_centrality, hn, hlen]⟩
  · intro n hn
    by_cases hlen : g.nodes.length ≤ 1
    · exact ⟨1, by simp [out_degree_centrality, hn, hlen],
        by simp [setSizes, out_degree_centrality, hn, hlen]⟩
    · exact ⟨(outDeg g n : ℚ) / ((g.nodes.length : ℚ) - 1),
        by simp [out_degree_centrality, hn, hlen],
        by simp [setSizes, out_degree_centrality, hn, hlen]⟩

/-- Witness for C5 amended: the concrete run on the graph A → B. -/
theorem hyphenless_degree_method_names_witness :
    graphTruthy (some gAB) = true ∧
    scale_nodes eigStub (some gAB) "indegree" =
      Except.ok (setSizes gAB (in_degree_centrality gAB)) :=
  ⟨by decide, (hyphenless_degree_method_names eigStub gAB (by decide)).1⟩

/-! ### Range lemmas for the centrality measures (claim C2) -/

/-- A duplicate-free list contained in another list is no longer than
it. -/
theorem nodup_subset_length {α : Type} [DecidableEq α] {l l' : List α}
    (hl : l.Nodup) (hsub : l ⊆ l') : l.length ≤ l'.length :=
  (List.subperm_of_subset hl hsub).length_le

/-- In a well-formed graph without self-loops, a node's in-degree is at
most the number of *other* nodes: the incoming edges have pairwise
distinct sources, all nodes, none equal to the target. -/
theorem inDeg_le_of_no_self_loops (g : NXDiGraph) (n : String)
    (hwf : WF g) (hsl : NoSelfLoops g) (hn : n ∈ g.nodes) :
    inDeg g n ≤ g.nodes.length - 1 := by
  obtain ⟨hnodes, hends, hpairs⟩ := hwf
  have hsubl : (g.edges.filter (fun e => e.dst == n)).Sublist g.edges :=
    List.filter_sublist _
  have hpairs_l :
      ((g.edges.filter (fun e => e.dst == n)).map (fun e => (e.src, e.dst))).Nodup :=
    (hsubl.map _).nodup hpairs
  have hdst : ∀ e ∈ g.edges.filter (fun e => e.dst == n), e.dst = n := by
    intro e he
    simpa using List.of_mem_filter he
  have hmapeq : (g.edges.filter (fun e => e.dst == n)).map (fun e => (e.src, e.dst)) =
      ((g.edges.filter (fun e => e.dst == n)).map (fun e => e.src)).map
        (fun s => (s, n)) := by
    rw [List.map_map]
    exact List.map_congr_left (fun e he => by simp [Function.comp, hdst e he])
  have hsrcs_nodup : ((g.edges.filter (fun e => e.dst == n)).map (fun e => e.src)).Nodup := by
    refine List.Nodup.of_map (fun s => (s, n)) ?_
    rw [← hmapeq]
    exact hpairs_l
  have hsub : ((g.edges.filter (fun e => e.dst == n)).map (fun e => e.src)) ⊆
      g.nodes.erase n := by
    intro s hs
    obtain ⟨e, he, rfl⟩ := List.mem_map.1 hs
    have hmem : e ∈ g.edges := hsubl.subset he
    have hne : e.src ≠ n := by
      have := hsl e hmem
      rw [hdst e he] at this
      exact this
    exact (List.mem_erase_of_ne hne).2 (hends e hmem).1
  have hle := nodup_subset_length hsrcs_nodup hsub
  rw [List.length_map, List.length_erase_of_mem hn] at hle
  exact hle

/-- In a well-formed graph without self-loops, a node's out-degree is at
most the number of other nodes. -/
theorem outDeg_le_of_no_self_loops (g : NXDiGraph) (n : String)
    (hwf : WF g) (hsl : NoSelfLoops g) (hn : n ∈ g.nodes) :
    outDeg g n ≤ g.nodes.length - 1 := by
  obtain ⟨hnodes, hends, hpairs⟩ := hwf
  have hsubl : (g.edges.filter (fun e => e.src == n)).Sublist g.edges :=
    List.filter_sublist _
  have hpairs_l :
      ((g.edges.filter (fun e => e.src == n)).map (fun e => (e.src, e.dst))).Nodup :=
    (hsubl.map _).nodup hpairs
  have hsrc : ∀ e ∈ g.edges.filter (fun e => e.src == n), e.src = n := by
    intro e he
    simpa using List.of_mem_filter he
  have hmapeq : (g.edges.filter (fun e => e.src == n)).map (fun e => (e.src, e.dst)) =
      ((g.edges.filter (fun e => e.src == n)).map (fun e => e.dst)).map
        (fun d => (n, d)) := by
    rw [List.map_map]
    exact List.map_congr_left (fun e he => by simp [Function.comp, hsrc e he])
  have hdsts_nodup : ((g.edges.filter (fun e => e.src == n)).map (fun e => e.dst)).Nodup := by
    refine List.Nodup.of_map (fun d => (n, d)) ?_
    rw [← hmapeq]
    exact hpairs_l
  have hsub : ((g.edges.filter (fun e => e.src == n)).map (fun e => e.dst)) ⊆
      g.nodes.erase n := by
    intro d hd
    obtain ⟨e, he, rfl⟩ := List.mem_map.1 hd
    have hmem : e ∈ g.edges := hsubl.subset he
    have hne : e.dst ≠ n := by
      have := hsl e hmem
      rw [hsrc e he] at this
      exact fun hcontra => this (hcontra.symm ▸ rfl)
    exact (List.mem_erase_of_ne hne).2 (hends e hmem).2
  have hle := nodup_subset_length hdsts_nodup hsub
  rw [List.length_map, List.length_erase_of_mem hn] at hle
  exact hle

/-- Range of `in_degree_centrality` on well-formed graphs without
self-loops: every produced value is in [0, 1]. -/
theorem in_degree_centrality_range (g : NXDiGraph) (hwf : WF g) (hsl : NoSelfLoops g)
    (n : String) (v : ℚ) (h : in_degree_centrality g n = some v) :
    0 ≤ v ∧ v ≤ 1 := by
  unfold in_degree_centrality at h
  by_cases hn : n ∈ g.nodes
  swap
  · simp [hn] at h
  by_cases hlen : g.nodes.length ≤ 1
  · simp [hn, hlen] at h
    simp [← h]
  · simp [hn, hlen] at h
    have h2 : 2 ≤ g.nodes.length := by omega
    have hdenpos : (0 : ℚ) < (g.nodes.length : ℚ) - 1 := by
      have : (2 : ℚ) ≤ (g.nodes.length : ℚ) := by exact_mod_cast h2
      linarith
    have hd : inDeg g n ≤ g.nodes.length - 1 :=
      inDeg_le_of_no_self_loops g n hwf hsl hn
    constructor
    · rw [← h]
      exact div_nonneg (Nat.cast_nonneg _) hdenpos.le
    · rw [← h]
      rw [div_le_one hdenpos]
      calc (inDeg g n : ℚ) ≤ ((g.nodes.length - 1 : ℕ) : ℚ) := by exact_mod_cast hd
        _ = (g.nodes.length : ℚ) - 1 := by
            rw [Nat.cast_sub (by omega : 1 ≤ g.nodes.length)]
            norm_num

/-- Range of `out_degree_centrality` on well-formed graphs without
self-loops: every produced value is in [0, 1]. -/
theorem out_degree_centrality_range (g : NXDiGraph) (hwf : WF g) (hsl : NoSelfLoops g)
    (n : String) (v : ℚ) (h : out_degree_centrality g n = some v) :
    0 ≤ v ∧ v ≤ 1 := by
  unfold out_degree_centrality at h
  by_cases hn : n ∈ g.nodes
  swap
  · simp [hn] at h
  by_cases hlen : g.nodes.length ≤ 1
  · simp [hn, hlen] at h
    simp [← h]
  · simp [hn, hlen] at h
    have h2 : 2 ≤ g.nodes.length := by omega
    have hdenpos : (0 : ℚ) < (g.nodes.length : ℚ) - 1 := by
      have : (2 : ℚ) ≤ (g.nodes.length : ℚ) := by exact_mod_cast h2
      linarith
    have hd : outDeg g n ≤ g.nodes.length - 1 :=
      outDeg_le_of_no_self_loops g n hwf hsl hn
    constructor
    · rw [← h]
      exact div_nonneg (Nat.cast_nonneg _) hdenpos.le
    · rw [← h]
      rw [div_le_one hdenpos]
      calc (outDeg g n : ℚ) ≤ ((g.nodes.length - 1 : ℕ) : ℚ) := by exact_mod_cast hd
        _ = (g.nodes.length : ℚ) - 1 := by
            rw [Nat.cast_sub (by omega : 1 ≤ g.nodes.length)]
            norm_num

/-- Range of `degree_centrality` (the total-degree variant) on
well-formed graphs without self-loops: every produced value is in
[0, 2] — and only [0, 2]: reciprocal edges reach 2. -/
theorem degree_centrality_range (g : NXDiGraph) (hwf : WF g) (hsl : NoSelfLoops g)
    (n : String) (v : ℚ) (h : degree_centrality g n = some v) :
    0 ≤ v ∧ v ≤ 2 := by
  unfold degree_centrality at h
  by_cases hn : n ∈ g.nodes
  swap
  · simp [hn] at h
  by_cases hlen : g.nodes.length ≤ 1
  · simp [hn, hlen] at h
    constructor
    · simp [← h]
    · rw [← h]
      norm_num
  · simp [hn, hlen] at h
    have h2 : 2 ≤ g.nodes.length := by omega
    have hdenpos : (0 : ℚ) < (g.nodes.length : ℚ) - 1 := by
      have : (2 : ℚ) ≤ (g.nodes.length : ℚ) := by exact_mod_cast h2
      linarith
    have hd : deg g n ≤ 2 * (g.nodes.length - 1) := by
      have hin := inDeg_le_of_no_self_loops g n hwf hsl hn
      have hout := outDeg_le_of_no_self_loops g n hwf hsl hn
      unfold deg
      omega
    constructor
    · rw [← h]
      exact div_nonneg (Nat.cast_nonneg _) hdenpos.le
    · rw [← h]
      rw [div_le_iff₀ hdenpos]
      calc (deg g n : ℚ) ≤ ((2 * (g.nodes.length - 1) : ℕ) : ℚ) := by exact_mod_cast hd
        _ = 2 * ((g.nodes.length : ℚ) - 1) := by
            rw [Nat.cast_mul, Nat.cast_sub (by omega : 1 ≤ g.nodes.length)]
            norm_num

/-- Every node reaches itself in zero steps, and the distance search
finds 0 first. -/
theorem sdist_self (g : NXDiGraph) (u : String) : sdist g u u = some 0 := by
  unfold sdist
  rw [List.range_succ_eq_map]
  rw [List.find?_cons_of_pos]
  simp [withinK]

/-- A node distinct from the source is never at distance zero: the
search predicate at step 0 only holds for the source itself. -/
theorem sdist_pos_of_ne (g : NXDiGraph) {s t : String} (hne : t ≠ s) {k : ℕ}
    (h : sdist g s t = some k) : 1 ≤ k := by
  rcases k with _ | k
  · exfalso
    have hpred := List.find?_some h
    have hmem : t ∈ withinK g 0 s := by
      simpa using hpred
    simp [withinK] at hmem
    exact hne hmem
  · omega

/-- If every element of a duplicate-free list other than `u` is sent to
at least 1 by `f`, the mapped sum is at least the length minus one. -/
theorem length_pred_le_sum (l : List String) (f : String → ℕ) (u : String)
    (hnd : l.Nodup) (hu : u ∈ l) (h1 : ∀ x ∈ l, x ≠ u → 1 ≤ f x) :
    l.length - 1 ≤ (l.map f).sum := by
  have hperm : List.Perm l (u :: l.erase u) := List.perm_cons_erase hu
  have hsum : (l.map f).sum = f u + ((l.erase u).map f).sum := by
    rw [(hperm.map f).sum_eq]
    simp
  have hlen : (l.erase u).length = l.length - 1 := List.length_erase_of_mem hu
  have hbound : (l.erase u).length ≤ ((l.erase u).map f).sum := by
    have hall : ∀ x ∈ l.erase u, 1 ≤ f x := by
      intro x hx
      have hx' := (List.Nodup.mem_erase_iff hnd).1 hx
      exact h1 x hx'.2 hx'.1
    calc (l.erase u).length = ((l.erase u).map f).length := (List.length_map _ _).symm
      _ ≤ ((l.erase u).map f).sum := by
          apply List.length_le_sum_of_one_le
          intro x hx
          obtain ⟨y, hy, rfl⟩ := List.mem_map.1 hx
          exact hall y hy
  calc l.length - 1 = (l.erase u).length := hlen.symm
    _ ≤ ((l.erase u).map f).sum := hbound
    _ ≤ f u + ((l.erase u).map f).sum := Nat.le_add_left _ _
    _ = (l.map f).sum := hsum.symm

/-- Range of `closeness_centrality` on well-formed graphs: every
produced value is in [0, 1] (each reaching node contributes distance at
least 1, so the reciprocal-average factor and the Wasserman–Faust factor
are each at most 1). -/
theorem closeness_centrality_range (g : NXDiGraph) (hwf : WF g)
    (u : String) (v : ℚ) (h : closeness_centrality g u = some v) :
    0 ≤ v ∧ v ≤ 1 := by
  obtain ⟨hnodes, -, -⟩ := hwf
  unfold closeness_centrality at h
  by_cases hu : u ∈ g.nodes
  swap
  · simp [hu] at h
  by_cases hcond : 0 < totalReachDist g u ∧ 1 < g.nodes.length
  swap
  · simp [hu, hcond] at h
    simp [← h]
  rw [if_pos hu, if_pos hcond] at h
  have hX := Option.some.inj h
  obtain ⟨htpos, hnlen⟩ := hcond
  have hsp_nodup : (reachersOf g u).Nodup := hnodes.filter _
  have hu_sp : u ∈ reachersOf g u := by
    refine List.mem_filter.2 ⟨hu, ?_⟩
    simp [sdist_self]
  have hge1 : ∀ x ∈ reachersOf g u, x ≠ u → 1 ≤ (sdist g x u).getD 0 := by
    intro x hx hne
    have hxsome : (sdist g x u).isSome := by
      have := (List.mem_filter.1 hx).2
      simpa using this
    obtain ⟨k, hk⟩ := Option.isSome_iff_exists.1 hxsome
    rw [hk]
    simpa using sdist_pos_of_ne g (Ne.symm hne) hk
  have hcount : (reachersOf g u).length - 1 ≤ totalReachDist g u :=
    length_pred_le_sum (reachersOf g u) _ u hsp_nodup hu_sp hge1
  have hsub : (reachersOf g u).length ≤ g.nodes.length := List.length_filter_le _ _
  have hdenpos : (0 : ℚ) < (totalReachDist g u : ℚ) := by exact_mod_cast htpos
  have hnpos : (0 : ℚ) < (g.nodes.length : ℚ) - 1 := by
    have : (2 : ℚ) ≤ (g.nodes.length : ℚ) := by exact_mod_cast hnlen
    linarith
  have hf1 : (((reachersOf g u).length - 1 : ℕ) : ℚ) / (totalReachDist g u : ℚ) ≤ 1 := by
    rw [div_le_one hdenpos]
    exact_mod_cast hcount
  have hf2 : (((reachersOf g u).length - 1 : ℕ) : ℚ) / ((g.nodes.length : ℚ) - 1) ≤ 1 := by
    rw [div_le_one hnpos]
    calc (((reachersOf g u).length - 1 : ℕ) : ℚ) ≤ ((g.nodes.length - 1 : ℕ) : ℚ) := by
          exact_mod_cast Nat.sub_le_sub_right hsub 1
      _ = (g.nodes.length : ℚ) - 1 := by
          rw [Nat.cast_sub (by omega : 1 ≤ g.nodes.length)]
          norm_num
  have hf1nn : 0 ≤ (((reachersOf g u).length - 1 : ℕ) : ℚ) / (totalReachDist g u : ℚ) :=
    div_nonneg (Nat.cast_nonneg _) hdenpos.le
  have hf2nn : 0 ≤ (((reachersOf g u).length - 1 : ℕ) : ℚ) / ((g.nodes.length : ℚ) - 1) :=
    div_nonneg (Nat.cast_nonneg _) hnpos.le
  constructor
  · rw [← hX]
    exact mul_nonneg hf1nn hf2nn
  · rw [← hX]
    exact mul_le_one₀ hf1 hf2nn hf2

/-- Pair dependencies are nonnegative. -/
theorem pairDelta_nonneg (g : NXDiGraph) (s t v : String) : 0 ≤ pairDelta g s t v := by
  unfold pairDelta
  split
  · exact le_refl 0
  · exact div_nonneg (Nat.cast_nonneg _) (Nat.cast_nonneg _)

/-- Pair dependencies are at most one: the shortest paths through `v`
are among all shortest paths. -/
theorem pairDelta_le_one (g : NXDiGraph) (s t v : String) : pairDelta g s t v ≤ 1 := by
  unfold pairDelta
  split
  · exact zero_le_one
  · rename_i hσ
    have hσpos : (0 : ℚ) < (sigma g s t : ℚ) := by
      exact_mod_cast Nat.pos_of_ne_zero hσ
    rw [div_le_one hσpos]
    have : sigmaThrough g s t v ≤ sigma g s t := List.length_filter_le _ _
    exact_mod_cast this

/-- The inner index list of the betweenness accumulation (nodes distinct
from both `v` and `s`) has at most `n - 2` entries. -/
theorem inner_filter_length_le (nodes : List String) (v s : String)
    (hnd : nodes.Nodup) (hv : v ∈ nodes) (hs : s ∈ nodes) (hvs : s ≠ v) :
    (nodes.filter (fun t => !(t == v) && !(t == s))).length ≤ nodes.length - 2 := by
  have hTnd : (nodes.filter (fun t => !(t == v) && !(t == s))).Nodup := hnd.filter _
  have hsub : nodes.filter (fun t => !(t == v) && !(t == s)) ⊆ (nodes.erase v).erase s := by
    intro t ht
    have htm := List.mem_filter.1 ht
    have hcond := htm.2
    simp only [Bool.and_eq_true, Bool.not_eq_true', beq_eq_false_iff_ne] at hcond
    exact (List.mem_erase_of_ne hcond.2).2 ((List.mem_erase_of_ne hcond.1).2 htm.1)
  have hlen := nodup_subset_length hTnd hsub
  have hs' : s ∈ nodes.erase v := (List.mem_erase_of_ne hvs).2 hs
  rw [List.length_erase_of_mem hs', List.length_erase_of_mem hv] at hlen
  omega

/-- The outer index list of the betweenness accumulation (nodes distinct
from `v`) has at most `n - 1` entries. -/
theorem outer_filter_length_le (nodes : List String) (v : String)
    (hnd : nodes.Nodup) (hv : v ∈ nodes) :
    (nodes.filter (fun s => !(s == v))).length ≤ nodes.length - 1 := by
  have hTnd : (nodes.filter (fun s => !(s == v))).Nodup := hnd.filter _
  have hsub : nodes.filter (fun s => !(s == v)) ⊆ nodes.erase v := by
    intro s hs
    have hsm := List.mem_filter.1 hs
    have hcond := hsm.2
    simp only [Bool.not_eq_true', beq_eq_false_iff_ne] at hcond
    exact (List.mem_erase_of_ne hcond).2 hsm.1
  have hlen := nodup_subset_length hTnd hsub
  rw [List.length_erase_of_mem hv] at hlen
  exact hlen

/-- The raw betweenness accumulation is nonnegative. -/
theorem rawBetweenness_nonneg (g : NXDiGraph) (v : String) : 0 ≤ rawBetweenness g v := by
  unfold rawBetweenness
  apply List.sum_nonneg
  intro x hx
  obtain ⟨s, hs, rfl⟩ := List.mem_map.1 hx
  apply List.sum_nonneg
  intro y hy
  obtain ⟨t, ht, rfl⟩ := List.mem_map.1 hy
  exact pairDelta_nonneg g s t v

/-- The raw betweenness accumulation is at most `(n-1)(n-2)`: each of
the at most `(n-1)(n-2)` pair dependencies is at most 1. -/
theorem rawBetweenness_le (g : NXDiGraph) (v : String)
    (hnd : g.nodes.Nodup) (hv : v ∈ g.nodes) :
    rawBetweenness g v ≤
      ((g.nodes.length - 1 : ℕ) : ℚ) * ((g.nodes.length - 2 : ℕ) : ℚ) := by
  unfold rawBetweenness
  have hinner : ∀ s ∈ g.nodes.filter (fun s => !(s == v)),
      ((g.nodes.filter (fun t => !(t == v) && !(t == s))).map
        (fun t => pairDelta g s t v)).sum ≤ ((g.nodes.length - 2 : ℕ) : ℚ) := by
    intro s hs
    have hsm := List.mem_filter.1 hs
    have hsne : s ≠ v := by
      have := hsm.2
      simpa using this
    have hlenT := inner_filter_length_le g.nodes v s hnd hv hsm.1 hsne
    have h1 : ((g.nodes.filter (fun t => !(t == v) && !(t == s))).map
        (fun t => pairDelta g s t v)).sum ≤
        ((g.nodes.filter (fun t => !(t == v) && !(t == s))).map
          (fun t => pairDelta g s t v)).length • (1 : ℚ) := by
      apply List.sum_le_card_nsmul
      intro x hx
      obtain ⟨t, ht, rfl⟩ := List.mem_map.1 hx
      exact pairDelta_le_one g s t v
    rw [List.length_map] at h1
    calc ((g.nodes.filter (fun t => !(t == v) && !(t == s))).map
          (fun t => pairDelta g s t v)).sum
        ≤ (g.nodes.filter (fun t => !(t == v) && !(t == s))).length • (1 : ℚ) := h1
      _ = ((g.nodes.filter (fun t => !(t == v) && !(t == s))).length : ℚ) := by
          simp
      _ ≤ ((g.nodes.length - 2 : ℕ) : ℚ) := by exact_mod_cast hlenT
  have h2 : ((g.nodes.filter (fun s => !(s == v))).map (fun s =>
      ((g.nodes.filter (fun t => !(t == v) && !(t == s))).map
        (fun t => pairDelta g s t v)).sum)).sum ≤
      ((g.nodes.filter (fun s => !(s == v))).map (fun s =>
        ((g.nodes.filter (fun t => !(t == v) && !(t == s))).map
          (fun t => pairDelta g s t v)).sum)).length • ((g.nodes.length - 2 : ℕ) : ℚ) := by
    apply List.sum_le_card_nsmul
    intro x hx
    obtain ⟨s, hs, rfl⟩ := List.mem_map.1 hx
    exact hinner s hs
  rw [List.length_map] at h2
  have h3 := outer_filter_length_le g.nodes v hnd hv
  calc ((g.nodes.filter (fun s => !(s == v))).map (fun s =>
      ((g.nodes.filter (fun t => !(t == v) && !(t == s))).map
        (fun t => pairDelta g s t v)).sum)).sum
      ≤ (g.nodes.filter (fun s => !(s == v))).length • ((g.nodes.length - 2 : ℕ) : ℚ) := h2
    _ = ((g.nodes.filter (fun s => !(s == v))).length : ℚ) *
        ((g.nodes.length - 2 : ℕ) : ℚ) := by simp [nsmul_eq_mul]
    _ ≤ ((g.nodes.length - 1 : ℕ) : ℚ) * ((g.nodes.length - 2 : ℕ) : ℚ) := by
        apply mul_le_mul_of_nonneg_right ?_ (Nat.cast_nonneg _)
        exact_mod_cast h3

/-- On a graph with at most two nodes the raw betweenness accumulation
is empty: there is no ordered pair of distinct nodes avoiding `v`. -/
theorem rawBetweenness_eq_zero_of_small (g : NXDiGraph) (v : String)
    (_hnd : g.nodes.Nodup) (hv : v ∈ g.nodes) (hn : g.nodes.length ≤ 2) :
    rawBetweenness g v = 0 := by
  unfold rawBetweenness
  apply List.sum_eq_zero
  intro x hx
  obtain ⟨s, hs, rfl⟩ := List.mem_map.1 hx
  have hsm := List.mem_filter.1 hs
  have hsne : s ≠ v := by
    have := hsm.2
    simpa using this
  have hT : g.nodes.filter (fun t => !(t == v) && !(t == s)) = [] := by
    rw [List.filter_eq_nil_iff]
    intro t htm hcond
    simp only [Bool.and_eq_true, Bool.not_eq_true', beq_eq_false_iff_ne] at hcond
    have hvs_nodup : ([v, s] : List String).Nodup := by
      simp [Ne.symm hsne]
    have hsubp : ([v, s] : List String).Subperm g.nodes := by
      apply List.subperm_of_subset hvs_nodup
      intro x hx
      simp only [List.mem_cons, List.not_mem_nil, or_false] at hx
      rcases hx with rfl | rfl
      · exact hv
      · exact hsm.1
    have hperm : ([v, s] : List String).Perm g.nodes :=
      hsubp.perm_of_length_le (by simpa using hn)
    have htvs : t ∈ ([v, s] : List String) := (hperm.mem_iff).2 htm
    simp only [List.mem_cons, List.not_mem_nil, or_false] at htvs
    rcases htvs with rfl | rfl
    · exact hcond.1 rfl
    · exact hcond.2 rfl
  rw [hT]
  simp

/-- Range of `betweenness_centrality` on well-formed graphs: every
produced value is in [0, 1]. -/
theorem betweenness_centrality_range (g : NXDiGraph) (hwf : WF g)
    (v : String) (val : ℚ) (h : betweenness_centrality g v = some val) :
    0 ≤ val ∧ val ≤ 1 := by
  obtain ⟨hnd, -, -⟩ := hwf
  unfold betweenness_centrality at h
  by_cases hv : v ∈ g.nodes
  swap
  · simp [hv] at h
  by_cases hn : 2 < g.nodes.length
  · rw [if_pos hv, if_pos hn] at h
    have hval := Option.some.inj h
    have hc3 : (3 : ℚ) ≤ (g.nodes.length : ℚ) := by exact_mod_cast hn
    have hd2 : (0 : ℚ) < (g.nodes.length : ℚ) - 2 := by linarith
    have hd1 : (0 : ℚ) < (g.nodes.length : ℚ) - 1 := by linarith
    have hdenpos : 0 < ((g.nodes.length : ℚ) - 1) * ((g.nodes.length : ℚ) - 2) :=
      mul_pos hd1 hd2
    constructor
    · rw [← hval]
      exact div_nonneg (rawBetweenness_nonneg g v) hdenpos.le
    · rw [← hval]
      rw [div_le_one hdenpos]
      calc rawBetweenness g v
          ≤ ((g.nodes.length - 1 : ℕ) : ℚ) * ((g.nodes.length - 2 : ℕ) : ℚ) :=
            rawBetweenness_le g v hnd hv
        _ = ((g.nodes.length : ℚ) - 1) * ((g.nodes.length : ℚ) - 2) := by
            rw [Nat.cast_sub (by omega : 1 ≤ g.nodes.length),
              Nat.cast_sub (by omega : 2 ≤ g.nodes.length)]
            norm_num
  · rw [if_pos hv, if_neg hn] at h
    have hval := Option.some.inj h
    have hz := rawBetweenness_eq_zero_of_small g v hnd hv (by omega)
    rw [← hval, hz]
    norm_num

/-- The entries of a nonnegative unit-Euclidean-norm score vector (the
invariant of a successful eigenvector-centrality result) lie in
[0, 1]: each square is bounded by the total sum of squares. -/
theorem eigenvector_values_unit_range (values : List ℚ)
    (h : eigenvectorNormalized values) : ∀ v ∈ values, 0 ≤ v ∧ v ≤ 1 := by
  obtain ⟨hpos, hsum⟩ := h
  intro v hv
  refine ⟨hpos v hv, ?_⟩
  have hsq : v * v ≤ 1 := by
    rw [← hsum]
    apply List.single_le_sum (fun x hx => ?_) _ (List.mem_map_of_mem (fun a => a * a) hv)
    obtain ⟨y, hy, rfl⟩ := List.mem_map.1 hx
    exact mul_self_nonneg y
  nlinarith [hpos v hv]

/-- C2 amended: ranges of the centrality values on well-formed graphs.
In-degree and out-degree centrality values lie in [0, 1] when the graph
has no self-loops; total-degree centrality values lie in [0, 2] under
the same proviso (reaching 2 on reciprocal edges, so the spec's [0, 1]
fails for the `degree` method); closeness and betweenness values lie in
[0, 1] unconditionally; and a convergent eigenvector-centrality result —
a nonnegative score vector of unit Euclidean norm — has all its values
in [0, 1]. -/
theorem centrality_value_ranges (g : NXDiGraph) (hwf : WF g) :
    (∀ n v, NoSelfLoops g → in_degree_centrality g n = some v → 0 ≤ v ∧ v ≤ 1) ∧
    (∀ n v, NoSelfLoops g → out_degree_centrality g n = some v → 0 ≤ v ∧ v ≤ 1) ∧
    (∀ n v, NoSelfLoops g → degree_centrality g n = some v → 0 ≤ v ∧ v ≤ 2) ∧
    (∀ n v, closeness_centrality g n = some v → 0 ≤ v ∧ v ≤ 1) ∧
    (∀ n v, betweenness_centrality g n = some v → 0 ≤ v ∧ v ≤ 1) ∧
    (∀ values, eigenvectorNormalized values → ∀ v ∈ values, 0 ≤ v ∧ v ≤ 1) :=
  ⟨fun n v hsl h => in_degree_centrality_range g hwf hsl n v h,
   fun n v hsl h => out_degree_centrality_range g hwf hsl n v h,
   fun n v hsl h => degree_centrality_range g hwf hsl n v h,
   fun n v h => closeness_centrality_range g hwf n v h,
   fun n v h => betweenness_centrality_range g hwf n v h,
   fun values h => eigenvector_values_unit_range values h⟩

/-- Witness for C2 amended: the closeness value of node A in the
concrete reciprocal graph is 1, inside [0, 1]. -/
theorem centrality_value_ranges_witness :
    WF gCycle ∧ (0 ≤ (1 : ℚ) ∧ (1 : ℚ) ≤ 1) :=
  ⟨by decide,
   (centrality_value_ranges gCycle (by decide)).2.2.2.1 "A" 1 (by
      have hm : "A" ∈ gCycle.nodes := by decide
      have hr : (reachersOf gCycle "A").length = 2 := by decide
      have ht : totalReachDist gCycle "A" = 1 := by decide
      have hn : gCycle.nodes.length = 2 := by decide
      simp [closeness_centrality, hm, hr, ht, hn]
      norm_num)⟩

/-- C2 counterexample: on the reciprocal-trade graph A ⇄ B (well-formed
and produced by `build_graph`), `nx.degree_centrality` gives node A the
value 2, outside [0, 1]; the `"degree"` method then writes size 200. -/
theorem degree_centrality_exceeds_unit_range_counterexample :
    WF gCycle ∧ degree_centrality gCycle "A" = some 2 ∧ ¬((2 : ℚ) ≤ 1) ∧
    (scale_nodes eigStub (some gCycle) "degree").toOption.map (fun h => h.sizeAttr "A") =
      some (some 200) := by
  have hmem : "A" ∈ gCycle.nodes := by decide
  have hlen : gCycle.nodes.length = 2 := by decide
  have hdeg : deg gCycle "A" = 2 := by decide
  have hcent : degree_centrality gCycle "A" = some 2 := by
    simp [degree_centrality, hmem, hlen, hdeg]
    norm_num
  have hrun : scale_nodes eigStub (some gCycle) "degree" =
      Except.ok (setSizes gCycle (degree_centrality gCycle)) := rfl
  refine ⟨by decide, hcent, by norm_num, ?_⟩
  rw [hrun]
  show some ((setSizes gCycle (degree_centrality gCycle)).sizeAttr "A") = some (some 200)
  simp [setSizes, hcent]
  norm_num

end CitesNetwork
